import Mathlib

/-!
Verification development for the cogar server core (Rust).

The Rust sources are shallowly embedded: pure Rust functions become Lean
functions over `ℕ` / `ℤ` / `ℚ`, stateful handlers become explicit
state-passing functions, and fallible reads return `Option` / `Except`.
Rust `f32` arithmetic on sizes, positions and masses is modelled over `ℚ`
(exact rational arithmetic; the spec states its arithmetic laws "modulo
floating-point rounding").  Square roots, which do not exist in `ℚ`, are
passed as explicit values constrained by `s * s = x` in the theorems.
Machine-integer casts are modelled with explicit truncation / `% 2^w`.
-/

set_option autoImplicit false
set_option linter.unusedVariables false

namespace Cogar

/-! ## Cell data model (crates/server/src/entity/cell.rs) -/

/-- Cell type enum from entity/cell.rs (`CellType`). -/
inductive CellType where
  | Player
  | Food
  | Virus
  | EjectedMass
  | MotherCell
deriving DecidableEq, Repr

/-- Boost movement data from entity/cell.rs (`BoostData`); only the decaying
`distance` field is consumed by the operations verified here, so the unit
`direction` vector and `angle` (f32 trigonometry) are not carried. -/
structure BoostData where
  distance : ℚ
deriving DecidableEq, Repr

/-- Common cell data from entity/cell.rs (`CellData`); positions, sizes,
radius and mass are modelled over `ℚ`.  Fields that no verified operation
reads (color, flags) are not carried. -/
structure CellData where
  node_id : ℕ
  owner_id : Option ℕ
  cell_type : CellType
  pos_x : ℚ
  pos_y : ℚ
  size : ℚ
  radius : ℚ
  mass : ℚ
  tick_of_birth : ℕ
  is_removed : Bool
  boost : Option BoostData
deriving DecidableEq, Repr

/-- The constant `MASS_DIVISOR` from entity/cell.rs. -/
def MASS_DIVISOR : ℚ := 100

namespace CellData

/-- Constructor `CellData::new`: `radius = size * size`, `mass = radius / 100`. -/
def new (node_id : ℕ) (cell_type : CellType) (px py : ℚ) (size : ℚ) (tick : ℕ) : CellData :=
  { node_id := node_id
    owner_id := none
    cell_type := cell_type
    pos_x := px
    pos_y := py
    size := size
    radius := size * size
    mass := size * size / MASS_DIVISOR
    tick_of_birth := tick
    is_removed := false
    boost := none }

/-- Setter `CellData::set_size`: updates `size` and recomputes
`radius = size * size` and `mass = radius / 100`. -/
def set_size (c : CellData) (size : ℚ) : CellData :=
  { c with size := size, radius := size * size, mass := size * size / MASS_DIVISOR }

/-- Age accessor `CellData::get_age`: `current_tick.saturating_sub(tick_of_birth)`
(ℕ subtraction is saturating). -/
def get_age (c : CellData) (current_tick : ℕ) : ℕ :=
  current_tick - c.tick_of_birth

/-- Eat hook `CellData::on_eat`: `new_radius = radius + other_radius;
set_size(new_radius.sqrt())`.  The square root is not computable over `ℚ`,
so its value is an explicit argument `sqrt_val`; the theorems constrain it
by `sqrt_val * sqrt_val = c.radius + other_radius`. -/
def on_eat (c : CellData) (other_radius : ℚ) (sqrt_val : ℚ) : CellData :=
  set_size c sqrt_val

end CellData

/-- Rust `f32::clamp(lo, hi)` semantics for `lo ≤ hi` (the `lo > hi` panic
case is excluded by hypothesis where this is used). -/
def rustClamp (x lo hi : ℚ) : ℚ :=
  if x < lo then lo else if x > hi then hi else x

/-- Border clamp `CellData::check_border`: clamps each coordinate to
`[min + size/2, max - size/2]`. -/
def CellData.check_border (c : CellData) (min_x min_y max_x max_y : ℚ) : CellData :=
  { c with
    pos_x := rustClamp c.pos_x (min_x + c.size / 2) (max_x - c.size / 2)
    pos_y := rustClamp c.pos_y (min_y + c.size / 2) (max_y - c.size / 2) }

/-! ## Collision helpers (crates/server/src/collision.rs) -/

/-- Conversion `size_to_mass` from collision.rs: `size² / 100`. -/
def size_to_mass (size : ℚ) : ℚ := size * size / 100

/-- The eat application loop body from `GameState::process_collisions`
(game.rs): for an eat event carrying `eaten_mass = size_to_mass(prey_size)`,
the eater grows by `on_eat(eaten_mass * 100)`.  `sqrt_val` stands for the
f32 square root computed inside `on_eat` (see `CellData.on_eat`). -/
def applyEatEvent (eater : CellData) (eaten_mass : ℚ) (sqrt_val : ℚ) : CellData :=
  eater.on_eat (eaten_mass * 100) sqrt_val

/-! ## Merge eligibility (crates/server/src/entity/player_cell.rs) -/

/-- Player cell from entity/player_cell.rs; `merge_tick` is never read by
the verified operations and is not carried. -/
structure PlayerCell where
  cell_data : CellData
  can_remerge : Bool
deriving DecidableEq, Repr

/-- Rust `as u64` applied to a nonnegative f32 value: truncation toward
zero; over `ℚ` with `0 ≤ x` this is `⌊x⌋.toNat`. -/
def ratToU64 (x : ℚ) : ℕ := (Int.floor x).toNat

/-- The merge-eligibility update `PlayerCell::update_merge` translated from
entity/player_cell.rs.  Returns the updated cell (whose `can_remerge` holds
the result):
* age below the hard-coded `splitRestoreTicks = 13` ⇒ `false`;
* `merge_time_base ≤ 0` ⇒ remerge allowed once boosting is (almost) done:
  `boost.map(|b| b.distance < 100.0).unwrap_or(true)`;
* otherwise `age ≥ (merge_time_base.max(size * 0.2) * 25) as u64`. -/
def PlayerCell.update_merge (p : PlayerCell) (current_tick : ℕ) (merge_time_base : ℚ) :
    PlayerCell :=
  let age := current_tick - p.cell_data.tick_of_birth
  if age < 13 then
    { p with can_remerge := false }
  else if merge_time_base ≤ 0 then
    { p with can_remerge :=
        match p.cell_data.boost with
        | some b => decide (b.distance < 100)
        | none => true }
  else
    let time := ratToU64 (max merge_time_base (p.cell_data.size * (2 / 10)) * 25)
    { p with can_remerge := decide (age ≥ time) }

/-! ## Food spawning (crates/server/src/world.rs) -/

/-- The number of food pellets created by one call of `World::spawn_food`
(world.rs): capped by `max_amount - current`; doubled-rate catch-up
(`to_spawn * 2`) while the population is below `min_amount`. -/
def spawnFoodCount (current min_amount max_amount spawn_amount : ℕ) : ℕ :=
  if current ≥ max_amount then 0
  else
    let to_spawn := min spawn_amount (max_amount - current)
    if current < min_amount then min (min_amount - current) (to_spawn * 2)
    else to_spawn

/-! ## World border and food spawning positions (crates/server/src/world.rs) -/

/-- World border from world.rs (`WorldBorder`). -/
structure WorldBorder where
  min_x : ℚ
  min_y : ℚ
  max_x : ℚ
  max_y : ℚ
  width : ℚ
  height : ℚ
deriving DecidableEq, Repr

/-- Constructor `WorldBorder::new`: centred box of the given dimensions. -/
def WorldBorder.new (width height : ℚ) : WorldBorder :=
  { min_x := -(width / 2), min_y := -(height / 2)
    max_x := width / 2, max_y := height / 2
    width := width, height := height }

/-- The set of positions `WorldBorder::random_position` can return:
`rng.random_range(min..max)` samples the half-open interval `[min, max)`
on each axis, with no size-dependent margin. -/
def WorldBorder.possibleRandomPos (b : WorldBorder) (px py : ℚ) : Prop :=
  b.min_x ≤ px ∧ px < b.max_x ∧ b.min_y ≤ py ∧ py < b.max_y

/-- One pellet of the `World::spawn_food` loop (world.rs): `Food::new`
builds the cell directly at the sampled position (`CellData::new` via
food.rs; no border clamp is applied). -/
def spawnFoodCell (id : ℕ) (px py size : ℚ) (tick : ℕ) : CellData :=
  CellData.new id CellType.Food px py size tick

/-- The per-cell border-margin bound asserted by the spec:
`min + size/2 ≤ position ≤ max − size/2` on both axes. -/
def withinBorderMargin (b : WorldBorder) (c : CellData) : Prop :=
  b.min_x + c.size / 2 ≤ c.pos_x ∧ c.pos_x ≤ b.max_x - c.size / 2
    ∧ b.min_y + c.size / 2 ≤ c.pos_y ∧ c.pos_y ≤ b.max_y - c.size / 2

/-! ## Connection handshake (crates/server/src/server/game.rs, client.rs) -/

/-- The session fields of `Client` read and written by the handshake path
(server/client.rs); the remaining session fields are irrelevant to the
handshake claims. -/
structure SessionClient where
  protocol : ℕ
  handshake_complete : Bool
deriving DecidableEq, Repr

/-- Constructor `Client::new`: `protocol: 0, handshake_complete: false`. -/
def SessionClient.new : SessionClient :=
  { protocol := 0, handshake_complete := false }

/-- Targeted messages emitted by the handshake path (`TargetedMessageType`);
the SetBorder payload (border coordinates, scramble, server name) is not
carried since no claim inspects it. -/
inductive TargetedMsg where
  | clearAll
  | setBorder
deriving DecidableEq, Repr

/-- Side effects of `GameState::handle_packet` relevant to the claims:
`spawnPlayer` marks that `handle_join` ran its spawn path. -/
inductive PacketAction where
  | spawnPlayer
deriving DecidableEq, Repr

/-- Little-endian u32 from four bytes (`u32::from_le_bytes`). -/
def leU32 (b1 b2 b3 b4 : ℕ) : ℕ :=
  b1 + 256 * b2 + 65536 * b3 + 16777216 * b4

/-- Handshake handler `GameState::handle_handshake` (game.rs): a 5-byte
`0xFE` packet sets the protocol version (fatal error outside `[1,17]`); a
5-byte `0xFF` packet completes the handshake (fatal error when
`protocol > 6` and the key is nonzero) and emits ClearAll and SetBorder;
anything else is logged and dropped (`Ok` with no state change). -/
def handleHandshake (c : SessionClient) (data : List ℕ) :
    Except String (SessionClient × List TargetedMsg) :=
  match data with
  | [] => .ok (c, [])
  | [254, b1, b2, b3, b4] =>
      let version := leU32 b1 b2 b3 b4
      if 1 ≤ version ∧ version ≤ 17 then .ok ({ c with protocol := version }, [])
      else .error "Unsupported protocol"
  | [255, b1, b2, b3, b4] =>
      let key := leU32 b1 b2 b3 b4
      if 6 < c.protocol ∧ key ≠ 0 then .error "Invalid handshake key"
      else .ok ({ c with handshake_complete := true }, [.clearAll, .setBorder])
  | _ => .ok (c, [])

/-- Packet dispatcher `GameState::handle_packet` (game.rs), restricted to
what the handshake claims observe: before the handshake is complete every
packet is routed to `handle_handshake`; afterwards a Join packet (opcode
`0x00`) reaches `handle_join`, which spawns a player cell. Opcodes other
than Join mutate no state relevant to these claims and are modelled as
no-ops. -/
def handlePacket (c : SessionClient) (data : List ℕ) :
    Except String (SessionClient × List TargetedMsg × List PacketAction) :=
  if c.handshake_complete = false then
    match handleHandshake c data with
    | .ok (c2, msgs) => .ok (c2, msgs, [])
    | .error e => .error e
  else
    match data.head? with
    | some 0 => .ok (c, [], [.spawnPlayer])
    | _ => .ok (c, [], [])

/-! ## Pairwise eat decision (crates/server/src/server/game.rs) -/

/-- The per-cell attributes `process_collisions` reads for one side of a
collision pair (after the larger/smaller swap). -/
structure PairCell where
  id : ℕ
  size : ℚ
  ptype : CellType
  owner : Option ℕ
  age : ℕ
  can_remerge : Bool
deriving DecidableEq, Repr

/-- Eat decision for one collision pair. `eat pop` records an eat event;
`pop = true` when a virus-pop is additionally recorded on the eater. -/
inductive EatOutcome where
  | noEat
  | eat (pop : Bool)
deriving DecidableEq, Repr

/-- The eat-decision chain of `GameState::process_collisions` (game.rs) for
one candidate pair, already ordered so that `larger.size ≥ smaller.size`
(the swap at the top of the loop guarantees this).  `dsq` is the squared
centre distance; `is_colliding` (`d < r` on f32 with `d = √dsq`) is
modelled at the squared level as `dsq < r * r`, exact for `r ≥ 0`.
`gamemode_allows` abstracts the `gamemode.can_eat` hook.  The outcome
mirrors the source: the eat event is pushed when `can_eat_check` holds and
the virus pop is recorded exactly when the eater is a Player, the prey a
Virus, and the eater has an owner. -/
def resolveEat (mobile : Bool) (virus_count virus_max : ℕ) (gamemode_allows : Bool)
    (larger smaller : PairCell) (dsq : ℚ) : EatOutcome :=
  let r := larger.size + smaller.size
  if ¬ dsq < r * r then .noEat
  else
    let div : ℚ := if mobile then 20 else 3
    let thr := larger.size - smaller.size / div
    if thr * thr ≤ dsq then .noEat
    else if smaller.ptype = .EjectedMass ∧ smaller.age < 2 then .noEat
    else if larger.ptype = .Food ∨ larger.ptype = .EjectedMass then .noEat
    else if larger.ptype = .Virus
        ∧ (smaller.ptype ≠ .EjectedMass ∨ virus_max ≤ virus_count) then .noEat
    else if smaller.ptype = .Player ∧ larger.ptype = .MotherCell then .eat false
    else
      let can_eat_check : Bool :=
        match smaller.ptype with
        | .Food => true
        | .EjectedMass => true
        | .MotherCell | .Virus => decide (smaller.size < larger.size)
        | .Player =>
          if smaller.owner = larger.owner ∧ smaller.owner ≠ none then
            let split_restore_ticks : ℕ := if mobile then 1 else 13
            (smaller.can_remerge && larger.can_remerge
                && decide (split_restore_ticks ≤ smaller.age)
                && decide (split_restore_ticks ≤ larger.age))
              && (decide (smaller.size < larger.size)
                  || (decide (larger.size = smaller.size) && decide (smaller.id < larger.id)))
          else
            gamemode_allows && decide (115 / 100 * smaller.size ≤ larger.size)
      if can_eat_check then
        .eat (decide (larger.ptype = .Player) && decide (smaller.ptype = .Virus)
          && larger.owner.isSome)
      else .noEat

/-- In-contact predicate for a pair, as computed by `process_collisions`
before the type dispatch: colliding (`dsq < r²`) and overlapping past the
eat threshold `larger.size - smaller.size / div`. -/
def inEatContact (mobile : Bool) (larger smaller : PairCell) (dsq : ℚ) : Prop :=
  dsq < (larger.size + smaller.size) * (larger.size + smaller.size)
    ∧ dsq < (larger.size - smaller.size / (if mobile then 20 else 3))
        * (larger.size - smaller.size / (if mobile then 20 else 3))

/-! ## Binary codec (crates/protocol/src/binary.rs)

The byte stream is a `List ℕ` of values below 256.  `BinaryReader`
consumption is modelled by functions from the stream to
`Option (value × rest)` (`bytes::Buf` panics on short input; the `try_*`
variants return `None`, which the `Option` captures for both).  `f32` /
`f64` payloads are modelled by their IEEE-754 bit patterns (the `_le`
operations of `bytes` are bijections between byte quadruples/octuples and
bit patterns). -/

/-- Reader `get_u8`. -/
def getU8 : List ℕ → Option (ℕ × List ℕ)
  | [] => none
  | b :: rest => some (b, rest)

/-- Reader `get_u16` (little-endian). -/
def getU16 : List ℕ → Option (ℕ × List ℕ)
  | b0 :: b1 :: rest => some (b0 + 256 * b1, rest)
  | _ => none

/-- Reader `get_u32` (little-endian). -/
def getU32 : List ℕ → Option (ℕ × List ℕ)
  | b0 :: b1 :: b2 :: b3 :: rest =>
      some (b0 + 256 * b1 + 65536 * b2 + 16777216 * b3, rest)
  | _ => none

/-- Reader `get_u64`-shaped byte access backing `get_f64` (little-endian
bit pattern). -/
def getU64 : List ℕ → Option (ℕ × List ℕ)
  | b0 :: b1 :: b2 :: b3 :: b4 :: b5 :: b6 :: b7 :: rest =>
      some (b0 + 256 * b1 + 65536 * b2 + 16777216 * b3 + 4294967296 * b4
        + 1099511627776 * b5 + 281474976710656 * b6 + 72057594037927936 * b7, rest)
  | _ => none

/-- Reader `get_i16`: little-endian two's complement. -/
def getI16 (l : List ℕ) : Option (ℤ × List ℕ) :=
  (getU16 l).map fun p => (if p.1 < 32768 then (p.1 : ℤ) else (p.1 : ℤ) - 65536, p.2)

/-- Reader `get_i32`: little-endian two's complement. -/
def getI32 (l : List ℕ) : Option (ℤ × List ℕ) :=
  (getU32 l).map fun p =>
    (if p.1 < 2147483648 then (p.1 : ℤ) else (p.1 : ℤ) - 4294967296, p.2)

/-- Reader `get_f32`, at the bit-pattern level. -/
def getF32 : List ℕ → Option (ℕ × List ℕ) := getU32

/-- Reader `get_f64`, at the bit-pattern level. -/
def getF64 : List ℕ → Option (ℕ × List ℕ) := getU64

/-- Writer `put_u8`. -/
def putU8 (v : ℕ) : List ℕ := [v % 256]

/-- Writer `put_u16` (little-endian). -/
def putU16 (v : ℕ) : List ℕ := [v % 256, v / 256 % 256]

/-- Writer `put_u32` (little-endian). -/
def putU32 (v : ℕ) : List ℕ :=
  [v % 256, v / 256 % 256, v / 65536 % 256, v / 16777216 % 256]

/-- Byte layout backing `put_f64` (little-endian bit pattern). -/
def putU64 (v : ℕ) : List ℕ :=
  [v % 256, v / 256 % 256, v / 65536 % 256, v / 16777216 % 256,
    v / 4294967296 % 256, v / 1099511627776 % 256, v / 281474976710656 % 256,
    v / 72057594037927936 % 256]

/-- Writer `put_i16`: little-endian two's complement. -/
def putI16 (v : ℤ) : List ℕ := putU16 (v % 65536).toNat

/-- Writer `put_i32`: little-endian two's complement. -/
def putI32 (v : ℤ) : List ℕ := putU32 (v % 4294967296).toNat

/-- Writer `put_f32`, at the bit-pattern level. -/
def putF32 (bits : ℕ) : List ℕ := putU32 bits

/-- Writer `put_f64`, at the bit-pattern level. -/
def putF64 (bits : ℕ) : List ℕ := putU64 bits

/-- A Rust `String` is modelled as the list of its Unicode scalar values. -/
def isValidScalar (c : ℕ) : Prop :=
  c < 1114112 ∧ ¬ (55296 ≤ c ∧ c < 57344)

instance (c : ℕ) : Decidable (isValidScalar c) := by
  unfold isValidScalar
  infer_instance

/-- The UTF-8 encoding of one Unicode scalar value (`str::as_bytes`). -/
def utf8EncodeChar (c : ℕ) : List ℕ :=
  if c < 128 then [c]
  else if c < 2048 then [192 + c / 64, 128 + c % 64]
  else if c < 65536 then [224 + c / 4096, 128 + c / 64 % 64, 128 + c % 64]
  else [240 + c / 262144, 128 + c / 4096 % 64, 128 + c / 64 % 64, 128 + c % 64]

/-- Writer `put_string_utf8`: the UTF-8 bytes of the string followed by a
NUL terminator. -/
def putStringUtf8 (s : List ℕ) : List ℕ :=
  (s.map utf8EncodeChar).flatten ++ [0]

/-- The reader loop of `get_string_utf8`: take bytes until the first `0`
or the end of the buffer. -/
def takeTillZero (l : List ℕ) : List ℕ :=
  l.takeWhile fun b => b != 0

/-- One step of the validating UTF-8 decoder modelling
`String::from_utf8_lossy`: given the first byte and the rest of the
stream, return the decoded scalar and the unconsumed remainder.  Exact on
valid UTF-8 (including the overlong / surrogate / range checks); an
invalid or truncated sequence yields the replacement character `U+FFFD`
(65533) and skips the lead byte.  Only the valid paths are exercised by
the theorems. -/
def utf8Step (b : ℕ) (rest : List ℕ) : ℕ × List ℕ :=
  if b < 128 then (b, rest)
  else if 194 ≤ b ∧ b ≤ 223 then
    match rest with
    | b2 :: rest2 =>
      if 128 ≤ b2 ∧ b2 ≤ 191 then ((b - 192) * 64 + (b2 - 128), rest2)
      else (65533, b2 :: rest2)
    | [] => (65533, [])
  else if 224 ≤ b ∧ b ≤ 239 then
    match rest with
    | b2 :: b3 :: rest3 =>
      if (128 ≤ b2 ∧ b2 ≤ 191) ∧ (128 ≤ b3 ∧ b3 ≤ 191)
          ∧ (b = 224 → 160 ≤ b2) ∧ (b = 237 → b2 ≤ 159) then
        ((b - 224) * 4096 + (b2 - 128) * 64 + (b3 - 128), rest3)
      else (65533, b2 :: b3 :: rest3)
    | other => (65533, other)
  else if 240 ≤ b ∧ b ≤ 244 then
    match rest with
    | b2 :: b3 :: b4 :: rest4 =>
      if (128 ≤ b2 ∧ b2 ≤ 191) ∧ (128 ≤ b3 ∧ b3 ≤ 191) ∧ (128 ≤ b4 ∧ b4 ≤ 191)
          ∧ (b = 240 → 144 ≤ b2) ∧ (b = 244 → b2 ≤ 143) then
        ((b - 240) * 262144 + (b2 - 128) * 4096 + (b3 - 128) * 64 + (b4 - 128), rest4)
      else (65533, b2 :: b3 :: b4 :: rest4)
    | other => (65533, other)
  else (65533, rest)

/-- The validating UTF-8 decoder loop (`String::from_utf8_lossy`). -/
def utf8DecodeLossy : List ℕ → List ℕ
  | [] => []
  | b :: rest =>
    (utf8Step b rest).1 :: utf8DecodeLossy (utf8Step b rest).2
termination_by l => l.length
decreasing_by
  have h : ∀ (b0 : ℕ) (l : List ℕ), (utf8Step b0 l).2.length ≤ l.length := by
    intro b0 l
    unfold utf8Step
    rcases l with _ | ⟨b2, rest2⟩
    · (repeat' split) <;> (try simp_all) <;> omega
    · rcases rest2 with _ | ⟨b3, rest3⟩
      · (repeat' split) <;> (try simp_all) <;> omega
      · rcases rest3 with _ | ⟨b4, rest4⟩
        · (repeat' split) <;> (try simp_all) <;> omega
        · (repeat' split) <;> (try simp_all) <;> omega
  simp only [List.length_cons]
  exact Nat.lt_succ_of_le (h _ _)

/-- Reader `get_string_utf8`: bytes until NUL, decoded lossily as UTF-8. -/
def getStringUtf8 (l : List ℕ) : List ℕ :=
  utf8DecodeLossy (takeTillZero l)

/-- The UTF-16 encoding of one Unicode scalar value (`str::encode_utf16`):
one code unit below `0x10000`, else a surrogate pair. -/
def utf16EncodeChar (c : ℕ) : List ℕ :=
  if c < 65536 then [c]
  else [55296 + (c - 65536) / 1024, 56320 + (c - 65536) % 1024]

/-- Writer `put_string_unicode`: each UTF-16 code unit as a little-endian
u16, followed by a NUL code unit. -/
def putStringUnicode (s : List ℕ) : List ℕ :=
  (((s.map utf16EncodeChar).flatten).map fun w => [w % 256, w / 256 % 256]).flatten
    ++ [0, 0]

/-- The reader loop of `get_string_unicode`: little-endian u16 units until
a zero unit or fewer than two bytes remain. -/
def collectU16TillZero : List ℕ → List ℕ
  | b0 :: b1 :: rest =>
      if b0 + 256 * b1 = 0 then [] else (b0 + 256 * b1) :: collectU16TillZero rest
  | _ => []

/-- One step of the validating UTF-16 decoder modelling
`String::from_utf16_lossy`: exact on valid UTF-16; a lone surrogate yields
the replacement character. -/
def utf16Step (w : ℕ) (rest : List ℕ) : ℕ × List ℕ :=
  if w < 55296 ∨ 57344 ≤ w then (w, rest)
  else if w ≤ 56319 then
    match rest with
    | w2 :: rest2 =>
      if 56320 ≤ w2 ∧ w2 ≤ 57343 then
        (65536 + (w - 55296) * 1024 + (w2 - 56320), rest2)
      else (65533, w2 :: rest2)
    | [] => (65533, [])
  else (65533, rest)

/-- The validating UTF-16 decoder loop (`String::from_utf16_lossy`). -/
def utf16DecodeLossy : List ℕ → List ℕ
  | [] => []
  | w :: rest =>
    (utf16Step w rest).1 :: utf16DecodeLossy (utf16Step w rest).2
termination_by l => l.length
decreasing_by
  have h : ∀ (w0 : ℕ) (l : List ℕ), (utf16Step w0 l).2.length ≤ l.length := by
    intro w0 l
    unfold utf16Step
    rcases l with _ | ⟨w2, rest2⟩
    · (repeat' split) <;> (try simp_all) <;> omega
    · (repeat' split) <;> (try simp_all) <;> omega
  simp only [List.length_cons]
  exact Nat.lt_succ_of_le (h _ _)

/-- Reader `get_string_unicode`: u16 units until NUL, decoded lossily as
UTF-16. -/
def getStringUnicode (l : List ℕ) : List ℕ :=
  utf16DecodeLossy (collectU16TillZero l)

/-! ## Client packet parsing (crates/protocol/src/packets/client.rs) -/

/-- Protocol errors from crates/protocol/src/error.rs used by the parser. -/
inductive ProtocolError where
  | unexpectedEof
  | invalidOpcode (op : ℕ)
  | invalidHandshakeKey
deriving DecidableEq, Repr

/-- Parsed client packet (`ClientPacket`); strings are lists of Unicode
scalar values. -/
inductive ClientPacket where
  | protocolVersion (v : ℕ)
  | handshakeKey (k : ℕ)
  | join (name : List ℕ)
  | spectate
  | mouse (x y : ℤ)
  | split
  | keyQ
  | eject
  | keyE
  | keyR
  | keyT
  | keyP
  | chat (flags : ℕ) (message : List ℕ)
  | statsRequest
deriving DecidableEq, Repr

/-- Magnitude of the value of an IEEE-754 double bit pattern, truncated
toward zero (used by the `f64 as i32` cast in the 21-byte mouse packet). -/
def f64TruncMag (bits : ℕ) : ℕ :=
  let exp := bits / 2 ^ 52 % 2048
  let mant := bits % 2 ^ 52
  if exp = 0 then 0
  else if 1075 ≤ exp then (2 ^ 52 + mant) * 2 ^ (exp - 1075)
  else (2 ^ 52 + mant) / 2 ^ (1075 - exp)

/-- Rust `f64 as i32` on an IEEE-754 bit pattern: truncation toward zero
with saturation to the i32 range; NaN casts to 0. -/
def f64AsI32 (bits : ℕ) : ℤ :=
  let sign := bits / 2 ^ 63
  let exp := bits / 2 ^ 52 % 2048
  let mant := bits % 2 ^ 52
  if exp = 2047 then
    if mant ≠ 0 then 0 else if sign = 1 then -2147483648 else 2147483647
  else if sign = 1 then max (-(f64TruncMag bits : ℤ)) (-2147483648)
  else min (f64TruncMag bits : ℤ) 2147483647

/-- Length of the reserved region skipped by the chat parser:
`4·(flags&2) + 8·(flags&4) + 16·(flags&8)` bytes. -/
def chatReservedLen (flags : ℕ) : ℕ :=
  (if flags &&& 2 ≠ 0 then 4 else 0) + (if flags &&& 4 ≠ 0 then 8 else 0)
    + (if flags &&& 8 ≠ 0 then 16 else 0)

/-- The packet parser `ClientPacket::parse` (packets/client.rs), translated
arm by arm.  Note the chat arm (opcode `0x63`): the message is decoded as
UTF-16 when `protocol < 6` and as UTF-8 otherwise, while the Join arm
(opcode `0x00`) decodes UTF-16 when `protocol > 6` and UTF-8 otherwise. -/
def ClientPacket.parse (data : List ℕ) (protocol : ℕ) :
    Except ProtocolError ClientPacket :=
  match data with
  | [] => .error .unexpectedEof
  | opcode :: rest =>
    if opcode = 254 then
      if data.length = 1 then .ok .statsRequest
      else if data.length = 5 then
        match getU32 rest with
        | some (v, _) => .ok (.protocolVersion v)
        | none => .error .unexpectedEof
      else .error (.invalidOpcode opcode)
    else if opcode = 255 then
      if data.length ≠ 5 then .error .invalidHandshakeKey
      else
        match getU32 rest with
        | some (k, _) => .ok (.handshakeKey k)
        | none => .error .unexpectedEof
    else if opcode = 0 then
      .ok (.join (if protocol > 6 then getStringUnicode rest else getStringUtf8 rest))
    else if opcode = 1 then .ok .spectate
    else if opcode = 16 then
      if data.length = 13 then
        match getI32 rest with
        | some (x, rest2) =>
          match getI32 rest2 with
          | some (y, _) => .ok (.mouse x y)
          | none => .error .unexpectedEof
        | none => .error .unexpectedEof
      else if data.length = 9 then
        match getI16 rest with
        | some (x, rest2) =>
          match getI16 rest2 with
          | some (y, _) => .ok (.mouse x y)
          | none => .error .unexpectedEof
        | none => .error .unexpectedEof
      else if data.length = 21 then
        match getF64 rest with
        | some (xbits, rest2) =>
          match getF64 rest2 with
          | some (ybits, _) => .ok (.mouse (f64AsI32 xbits) (f64AsI32 ybits))
          | none => .error .unexpectedEof
        | none => .error .unexpectedEof
      else .error (.invalidOpcode opcode)
    else if opcode = 17 then .ok .split
    else if opcode = 18 then .ok .keyQ
    else if opcode = 21 then .ok .eject
    else if opcode = 22 then .ok .keyE
    else if opcode = 23 then .ok .keyR
    else if opcode = 24 then .ok .keyT
    else if opcode = 25 then .ok .keyP
    else if opcode = 99 then
      if data.length < 3 then .error .unexpectedEof
      else
        match rest with
        | flags :: rest2 =>
          let body := rest2.drop (chatReservedLen flags)
          .ok (.chat flags
            (if protocol < 6 then getStringUnicode body else getStringUtf8 body))
        | [] => .error .unexpectedEof
    else .error (.invalidOpcode opcode)

/-! ## Spatial index (crates/server/src/spatial/quadtree.rs)

The grid size is the hard-coded `32`; `cell_size = width / 32` is set by
the constructor and carried as a field.  The mutable `items` vector with
its `id_to_index` map is modelled by the list of live items (insert
overwrites the entry of an existing id, so the map sends each live id to
its unique item); the spatial-hash `grid` is modelled by the per-cell
contents it holds after `rebuild_grid` (the tree is always rebuilt before
a query).  Rust `as i32` casts on f32 grid coordinates are truncation
toward zero (`ratAsI32`); the i32/usize saturation and wrap behaviour of
the source's casts is absorbed into the `min`/`if negative` clamps exactly
as in the code (values above the i32 range behave identically after the
clamp to `grid_size - 1`). -/

/-- Axis-aligned bounding box (`Bounds` in quadtree.rs). -/
structure QBounds where
  min_x : ℚ
  min_y : ℚ
  max_x : ℚ
  max_y : ℚ
deriving DecidableEq, Repr

/-- Constructor `Bounds::from_center`. -/
def QBounds.fromCenter (cx cy size : ℚ) : QBounds :=
  { min_x := cx - size, min_y := cy - size, max_x := cx + size, max_y := cy + size }

/-- Predicate `Bounds::intersects`. -/
def QBounds.intersects (a b : QBounds) : Bool :=
  !(decide (b.min_x ≥ a.max_x) || decide (b.max_x ≤ a.min_x)
    || decide (b.min_y ≥ a.max_y) || decide (b.max_y ≤ a.min_y))

/-- An item stored in the tree (`QuadItem`). -/
structure QuadItem where
  id : ℕ
  x : ℚ
  y : ℚ
  size : ℚ
  bound : QBounds
deriving DecidableEq, Repr

/-- Constructor `QuadItem::new`: caches `bound = from_center(x, y, size)`. -/
def QuadItem.make (id : ℕ) (x y size : ℚ) : QuadItem :=
  { id := id, x := x, y := y, size := size, bound := QBounds.fromCenter x y size }

/-- The `QuadTree` state observed by a query: live items, world bounds and
the grid cell size (`width / 32`). -/
structure QuadTree where
  items : List QuadItem
  bounds : QBounds
  cellSize : ℚ
deriving DecidableEq, Repr

/-- Rust `as i32` on an f32 value: truncation toward zero. -/
def ratAsI32 (x : ℚ) : ℤ :=
  if x < 0 then Int.ceil x else Int.floor x

/-- Grid coordinate of a world coordinate: `((v - origin) / cell_size) as i32`. -/
def gridIdx (origin cs v : ℚ) : ℤ :=
  ratAsI32 ((v - origin) / cs)

/-- Clamp used for the high end of a grid range:
`(t as usize).min(grid_size - 1)` — a negative i32 wraps to a huge usize,
so it clamps to 31. -/
def clampHi (t : ℤ) : ℕ :=
  if t < 0 then 31 else min t.toNat 31

/-- Low end of an item's grid range in `rebuild_grid`:
`(min_g.max(0) as usize).min(grid_size - 1)`. -/
def clampLo (t : ℤ) : ℕ :=
  min t.toNat 31

/-- The grid ranges an item is inserted into by `rebuild_grid`. -/
def itemLoX (qt : QuadTree) (it : QuadItem) : ℕ :=
  clampLo (gridIdx qt.bounds.min_x qt.cellSize it.bound.min_x)

/-- High x grid coordinate of an item in `rebuild_grid`. -/
def itemHiX (qt : QuadTree) (it : QuadItem) : ℕ :=
  clampHi (gridIdx qt.bounds.min_x qt.cellSize it.bound.max_x)

/-- Low y grid coordinate of an item in `rebuild_grid`. -/
def itemLoY (qt : QuadTree) (it : QuadItem) : ℕ :=
  clampLo (gridIdx qt.bounds.min_y qt.cellSize it.bound.min_y)

/-- High y grid coordinate of an item in `rebuild_grid`. -/
def itemHiY (qt : QuadTree) (it : QuadItem) : ℕ :=
  clampHi (gridIdx qt.bounds.min_y qt.cellSize it.bound.max_y)

/-- Contents of one grid cell after `rebuild_grid`: the ids of the items
whose clamped grid range covers the cell, in item order. -/
def cellIds (qt : QuadTree) (gx gy : ℕ) : List ℕ :=
  (qt.items.filter fun it =>
    decide (itemLoX qt it ≤ gx) && decide (gx ≤ itemHiX qt it)
      && decide (itemLoY qt it ≤ gy) && decide (gy ≤ itemHiY qt it)).map (·.id)

/-- Low x grid coordinate scanned by `find_in_bounds`: `min_gx.max(0) as
usize` — note: unlike the rebuild clamp, NOT capped at 31. -/
def queryLoX (qt : QuadTree) (q : QBounds) : ℕ :=
  (gridIdx qt.bounds.min_x qt.cellSize q.min_x).toNat

/-- High x grid coordinate scanned by `find_in_bounds`. -/
def queryHiX (qt : QuadTree) (q : QBounds) : ℕ :=
  clampHi (gridIdx qt.bounds.min_x qt.cellSize q.max_x)

/-- Low y grid coordinate scanned by `find_in_bounds`. -/
def queryLoY (qt : QuadTree) (q : QBounds) : ℕ :=
  (gridIdx qt.bounds.min_y qt.cellSize q.min_y).toNat

/-- High y grid coordinate scanned by `find_in_bounds`. -/
def queryHiY (qt : QuadTree) (q : QBounds) : ℕ :=
  clampHi (gridIdx qt.bounds.min_y qt.cellSize q.max_y)

/-- The scan order of `find_in_bounds`: `gy` outer, `gx` inner, both
inclusive ranges (empty when `lo > hi`). -/
def scanCells (loX hiX loY hiY : ℕ) : List (ℕ × ℕ) :=
  ((List.range (hiY + 1 - loY)).map (· + loY)).flatMap fun gy =>
    ((List.range (hiX + 1 - loX)).map (· + loX)).map fun gx => (gx, gy)

/-- The `id_to_index` lookup followed by the AABB test in the query loop:
true iff the live item with this id exists and its bound intersects the
query bound. -/
def lookupIntersects (qt : QuadTree) (q : QBounds) (id : ℕ) : Bool :=
  match qt.items.find? (fun it => it.id == id) with
  | some it => it.bound.intersects q
  | none => false

/-- The per-id body of the query loop: dedup via the 1024-word seen bitset
keyed on `id & 0xFFFF` (the `word_idx < seen_bits.len()` guard always
holds since `bit_idx < 65536`), then the indexed lookup and the AABB
filter.  The seen bitset is modelled as the list of set bit indices, the
result vector as a list. -/
def qtFoldStep (qt : QuadTree) (q : QBounds) (acc : List ℕ × List ℕ) (id : ℕ) :
    List ℕ × List ℕ :=
  let bit := id % 65536
  if bit ∈ acc.1 then acc
  else
    match qt.items.find? (fun it => it.id == id) with
    | some it =>
      if it.bound.intersects q then (bit :: acc.1, acc.2 ++ [id])
      else (bit :: acc.1, acc.2)
    | none => (bit :: acc.1, acc.2)

/-- Query `QuadTree::find_in_bounds` (quadtree.rs): rebuild (modelled by
`cellIds`), scan the overlapping grid cells, deduplicate via the seen
bitset, filter to true AABB intersections. -/
def find_in_bounds (qt : QuadTree) (q : QBounds) : List ℕ :=
  ((scanCells (queryLoX qt q) (queryHiX qt q) (queryLoY qt q) (queryHiY qt q)).foldl
    (fun acc c => (cellIds qt c.1 c.2).foldl (qtFoldStep qt q) acc) ([], [])).2

/-- Query `QuadTree::find_in_radius`: a bounds query on the centred box. -/
def find_in_radius (qt : QuadTree) (cx cy radius : ℚ) : List ℕ :=
  find_in_bounds qt (QBounds.fromCenter cx cy radius)

/-! ## Concrete instances used by counterexamples and witnesses -/

/-- Concrete player cell used to refute C6: born at tick 0, size 10, still
boosting with remaining distance exactly 100. -/
def mergeCexCell : PlayerCell :=
  { cell_data :=
      { CellData.new 1 CellType.Player 0 0 10 0 with boost := some { distance := 100 } }
    can_remerge := false }

/-- The concrete tree refuting C2: a 32×32 world with cell size 1 holding
two items whose ids 1 and 65537 share the same low 16 bits, both at the
same position. -/
def dedupCexTree : QuadTree :=
  { items := [QuadItem.make 1 (1/2) (1/2) (1/2), QuadItem.make 65537 (1/2) (1/2) (1/2)]
    bounds := { min_x := 0, min_y := 0, max_x := 32, max_y := 32 }
    cellSize := 1 }

/-- A one-item tree used as a witness instance for the exactness theorem. -/
def singleItemTree : QuadTree :=
  { items := [QuadItem.make 7 (1/2) (1/2) (1/2)]
    bounds := { min_x := 0, min_y := 0, max_x := 32, max_y := 32 }
    cellSize := 1 }

end Cogar

/-! # Theorems -/

namespace Cogar

/-- Helper: `set_size` restores the size/radius/mass invariant. -/
theorem set_size_mass (c : CellData) (s : ℚ) :
    (c.set_size s).mass = s * s / 100 := rfl

/-- C7: at every eat event applied during a tick, mass is conserved: with
`eaten_mass = size_to_mass prey_size` (as pushed by `process_collisions`)
and `sqrt_val` the square root computed inside `on_eat`
(`sqrt_val * sqrt_val = radius + eaten_mass * 100`), the eater's mass after
the event equals its mass before plus the prey's mass.  This is exact in
rational arithmetic, i.e. modulo floating-point rounding. -/
theorem eat_event_conserves_mass (eater : CellData) (prey_size sqrt_val : ℚ)
    (hmass : eater.mass = eater.radius / 100)
    (hs : sqrt_val * sqrt_val = eater.radius + size_to_mass prey_size * 100) :
    (applyEatEvent eater (size_to_mass prey_size) sqrt_val).mass
      = eater.mass + size_to_mass prey_size := by
  simp only [applyEatEvent, CellData.on_eat, set_size_mass, hs, hmass, size_to_mass,
    MASS_DIVISOR]
  ring

/-- C7 witness: a concrete eater of size 3 (radius 9) eating prey of size 4
(radius 16) ends with mass `25/100 = 9/100 + 16/100`. -/
theorem eat_event_conserves_mass_witness :
    (applyEatEvent (CellData.new 1 CellType.Player 0 0 3 0) (size_to_mass 4) 5).mass
      = (CellData.new 1 CellType.Player 0 0 3 0).mass + size_to_mass 4 :=
  eat_event_conserves_mass (CellData.new 1 CellType.Player 0 0 3 0) 4 5
    (by norm_num [CellData.new, MASS_DIVISOR]) (by norm_num [CellData.new, size_to_mass])

/-- C5 counterexample: with 0 food present, floor 100, cap 1000 and
`spawn_amount = 10`, one spawn step creates 20 pellets — more than the
configured `spawn_amount` — refuting the claim that the per-tick cap holds
when the population is below the floor. -/
theorem spawn_food_cap_counterexample :
    spawnFoodCount 0 100 1000 10 = 20 ∧ ¬ spawnFoodCount 0 100 1000 10 ≤ 10 := by
  constructor <;> decide

/-- C5 amended: the food-spawn step creates at most `2 * spawn_amount`
pellets per tick, and at most `spawn_amount` once the population has
reached the configured minimum floor. -/
theorem spawn_food_cap (current min_amount max_amount spawn_amount : ℕ) :
    spawnFoodCount current min_amount max_amount spawn_amount ≤ 2 * spawn_amount
      ∧ (min_amount ≤ current →
          spawnFoodCount current min_amount max_amount spawn_amount ≤ spawn_amount) := by
  unfold spawnFoodCount
  constructor
  · split
    · omega
    · simp only []
      split <;> omega
  · intro h
    split
    · omega
    · simp only []
      split <;> omega

/-- C5 witness: at the floor (100 of 100 present), at most 10 pellets are
spawned. -/
theorem spawn_food_cap_witness :
    spawnFoodCount 100 100 1000 10 ≤ 2 * 10 ∧ spawnFoodCount 100 100 1000 10 ≤ 10 :=
  ⟨(spawn_food_cap 100 100 1000 10).1, (spawn_food_cap 100 100 1000 10).2 (by decide)⟩

/-- C6 counterexample: with `merge_time = 0` (≤ 0) and age 13 ≥ 13, the
claim predicts `can_remerge = true` (only the age condition applies), but
`update_merge` leaves it `false` because the cell still has a boost with
distance `100 ≥ 100`. -/
theorem update_merge_counterexample :
    (mergeCexCell.update_merge 13 0).can_remerge = false
      ∧ 13 ≤ 13 - mergeCexCell.cell_data.tick_of_birth
      ∧ ¬ (0 : ℚ) > 0 := by
  refine ⟨?_, by decide, by norm_num⟩
  rfl

/-- C6 amended: after `update_merge`, `can_remerge` is true iff the age is
at least the hard-coded `split_restore_ticks = 13` AND, when
`merge_time > 0`, the age is at least `max(merge_time, size·0.2)·25`
truncated to whole ticks AND, when `merge_time ≤ 0`, any remaining boost
has distance below 100. -/
theorem update_merge_characterization (p : PlayerCell) (tick : ℕ) (mtb : ℚ) :
    (p.update_merge tick mtb).can_remerge = true ↔
      (13 ≤ tick - p.cell_data.tick_of_birth
        ∧ (0 < mtb →
            ratToU64 (max mtb (p.cell_data.size * (2 / 10)) * 25)
              ≤ tick - p.cell_data.tick_of_birth)
        ∧ (mtb ≤ 0 → ∀ b, p.cell_data.boost = some b → b.distance < 100)) := by
  unfold PlayerCell.update_merge
  by_cases hage : tick - p.cell_data.tick_of_birth < 13
  · rw [if_pos hage]
    simp only [Bool.false_eq_true, false_iff, not_and]
    intro h1
    omega
  · rw [if_neg hage]
    rcases le_or_lt mtb 0 with hm | hm
    · rw [if_pos hm]
      cases hb : p.cell_data.boost with
      | none =>
        simp only [true_iff]
        refine ⟨by omega, fun h0 => absurd h0 (not_lt.mpr hm), ?_⟩
        intro _ b hb2
        exact absurd hb2 (by simp)
      | some b =>
        simp only [decide_eq_true_eq]
        constructor
        · intro h
          refine ⟨by omega, fun h0 => absurd h0 (not_lt.mpr hm), ?_⟩
          intro _ b2 hb2
          injection hb2 with hb3
          exact hb3 ▸ h
        · intro ⟨h1, h2, h3⟩
          exact h3 hm b rfl
    · rw [if_neg (not_le.mpr hm)]
      simp only [ge_iff_le, decide_eq_true_eq]
      constructor
      · intro h
        exact ⟨by omega, fun _ => h, fun h0 => absurd hm (not_lt.mpr h0)⟩
      · intro ⟨h1, h2, h3⟩
        exact h2 hm

/-- C3 counterexample: a fresh client (handshake incomplete) sending a Join
packet (first byte `0x00`) is NOT disconnected — `handle_packet` returns
`Ok` with the session state unchanged (and no cell spawned), not a fatal
error. -/
theorem join_before_handshake_counterexample :
    handlePacket SessionClient.new [0, 65, 0] = .ok (SessionClient.new, [], [])
      ∧ ∀ e, handlePacket SessionClient.new [0, 65, 0] ≠ .error e := by
  constructor
  · rfl
  · intro e h
    simp [handlePacket, SessionClient.new, handleHandshake] at h

/-- C3 amended: for every client whose handshake is not complete, a packet
whose first byte is `0x00` (Join) is silently dropped: the handler returns
`Ok`, the session state is unchanged, nothing is emitted, and no player
cell is spawned (the `handle_join` spawn path is never reached). -/
theorem join_before_handshake_dropped (c : SessionClient) (data : List ℕ)
    (hc : c.handshake_complete = false) (hd : data.head? = some 0) :
    handlePacket c data = .ok (c, [], []) := by
  unfold handlePacket
  rw [hc]
  cases data with
  | nil => simp at hd
  | cons b rest =>
    simp only [List.head?] at hd
    injection hd with hb
    subst hb
    match rest with
    | [] => rfl
    | [b1] => rfl
    | [b1, b2] => rfl
    | [b1, b2, b3] => rfl
    | [b1, b2, b3, b4] => rfl
    | b1 :: b2 :: b3 :: b4 :: b5 :: rest5 => rfl

/-- C3 amended witness: the concrete 3-byte Join packet on a fresh client. -/
theorem join_before_handshake_dropped_witness :
    handlePacket SessionClient.new [0, 66, 0] = .ok (SessionClient.new, [], []) :=
  join_before_handshake_dropped SessionClient.new [0, 66, 0] rfl rfl

/-- C10: a fresh client (protocol still 0 from `Client::new`) sending a
valid 5-byte handshake-key packet (`0xFF`) without any prior `0xFE`
protocol packet completes the handshake with protocol 0: any key bytes are
accepted (the nonzero-key rejection only applies when `protocol > 6`),
`handshake_complete` becomes true, and ClearAll and SetBorder are emitted
to that client. -/
theorem handshake_key_without_protocol (b1 b2 b3 b4 : ℕ) :
    handlePacket SessionClient.new [255, b1, b2, b3, b4]
      = .ok ({ protocol := 0, handshake_complete := true },
          [.clearAll, .setBorder], []) := by
  unfold handlePacket SessionClient.new handleHandshake
  simp

/-- Helper: closed form of the eat decision for a Player-eater /
Virus-prey pair: eat iff in contact and strictly larger, with the pop
recorded exactly when the eater has an owner. -/
theorem resolveEat_player_virus (mobile : Bool) (vc vm : ℕ) (ga : Bool)
    (larger smaller : PairCell) (dsq : ℚ)
    (hl : larger.ptype = .Player) (hs : smaller.ptype = .Virus) :
    resolveEat mobile vc vm ga larger smaller dsq
      = if dsq < (larger.size + smaller.size) * (larger.size + smaller.size)
            ∧ dsq < (larger.size - smaller.size / (if mobile then 20 else 3))
                * (larger.size - smaller.size / (if mobile then 20 else 3))
            ∧ smaller.size < larger.size
        then .eat larger.owner.isSome else .noEat := by
  by_cases h1 : dsq < (larger.size + smaller.size) * (larger.size + smaller.size)
  · by_cases h2 : dsq < (larger.size - smaller.size / (if mobile then 20 else 3))
        * (larger.size - smaller.size / (if mobile then 20 else 3))
    · by_cases h3 : smaller.size < larger.size
      · simp [resolveEat, hl, hs, h1, h2, h3, not_le.mpr h2]
      · simp [resolveEat, hl, hs, h1, h2, h3, not_le.mpr h2]
    · simp [resolveEat, hl, hs, h1, h2, not_lt.mp (fun h => h2 h)]
  · simp [resolveEat, hl, hs, h1]

/-- C1 counterexample: with standard physics and zero centre distance, a
Player cell of size 105 (owner 1) eats a Virus of size 100 and a virus pop
is recorded, even though `105 < 1.15 · 100 = 115` — refuting the claimed
1.15-factor requirement for eating a virus. -/
theorem player_virus_eat_counterexample :
    resolveEat false 0 10 true
        { id := 2, size := 105, ptype := .Player, owner := some 1, age := 20,
          can_remerge := false }
        { id := 3, size := 100, ptype := .Virus, owner := none, age := 20,
          can_remerge := false } 0 = .eat true
      ∧ ¬ (115 / 100 * (100 : ℚ) ≤ 105) := by
  constructor
  · norm_num [resolveEat]
    decide
  · norm_num

/-- C1 amended: for a collision pair whose larger cell is a Player and
whose smaller cell is a Virus, the player eats the virus iff the pair is
in eating contact and the player is strictly larger than the virus — no
1.15 size factor is required (that factor only governs Player-vs-Player
pairs) — and the virus pop is recorded on the eater exactly when the eat
happens and the eater has an owner. -/
theorem player_virus_eat_iff (mobile : Bool) (vc vm : ℕ) (ga : Bool)
    (larger smaller : PairCell) (dsq : ℚ)
    (hl : larger.ptype = .Player) (hs : smaller.ptype = .Virus) :
    ((∃ pop, resolveEat mobile vc vm ga larger smaller dsq = .eat pop) ↔
        inEatContact mobile larger smaller dsq ∧ smaller.size < larger.size)
      ∧ (resolveEat mobile vc vm ga larger smaller dsq = .eat true ↔
          inEatContact mobile larger smaller dsq ∧ smaller.size < larger.size
            ∧ larger.owner.isSome = true) := by
  rw [resolveEat_player_virus mobile vc vm ga larger smaller dsq hl hs]
  unfold inEatContact
  by_cases hC : dsq < (larger.size + smaller.size) * (larger.size + smaller.size)
      ∧ dsq < (larger.size - smaller.size / (if mobile then 20 else 3))
          * (larger.size - smaller.size / (if mobile then 20 else 3))
      ∧ smaller.size < larger.size
  · rw [if_pos hC]
    refine ⟨⟨fun _ => ⟨⟨hC.1, hC.2.1⟩, hC.2.2⟩, fun _ => ⟨larger.owner.isSome, rfl⟩⟩, ?_⟩
    constructor
    · intro hp
      exact ⟨⟨hC.1, hC.2.1⟩, hC.2.2, EatOutcome.eat.inj hp⟩
    · intro ⟨_, _, hp⟩
      rw [hp]
  · rw [if_neg hC]
    constructor
    · constructor
      · intro ⟨pop, hpop⟩
        exact EatOutcome.noConfusion hpop
      · intro ⟨⟨ha, hb⟩, hc⟩
        exact absurd ⟨ha, hb, hc⟩ hC
    · constructor
      · intro hpop
        exact EatOutcome.noConfusion hpop
      · intro ⟨⟨ha, hb⟩, hc, _⟩
        exact absurd ⟨ha, hb, hc⟩ hC

/-- C9 counterexample: in a 3200×3200 world, `spawn_food` can place a
pellet of size 10 at `(-1600, 0)` — a position `random_position` can
return — and that freshly spawned cell violates the claimed bound
`min_x + size/2 ≤ position.x`; no later step of the tick moves or clamps a
food cell, so the invariant fails after the tick. -/
theorem border_margin_counterexample :
    (WorldBorder.new 3200 3200).possibleRandomPos (-1600) 0
      ∧ ¬ withinBorderMargin (WorldBorder.new 3200 3200)
          (spawnFoodCell 5 (-1600) 0 10 1) := by
  constructor
  · refine ⟨by norm_num [WorldBorder.new], by norm_num [WorldBorder.new],
      by norm_num [WorldBorder.new], by norm_num [WorldBorder.new]⟩
  · intro ⟨h1, _⟩
    norm_num [WorldBorder.new, spawnFoodCell, CellData.new] at h1

/-- C9 amended: `check_border` — which every motion step applies — clamps
the moved cell into `[min + size/2, max − size/2]` on both axes, provided
the cell fits in the border (the clamp interval is nonempty); the margin
invariant therefore holds for every cell right after a move, but spawning
and eat-growth do not re-clamp. -/
theorem check_border_clamps (c : CellData) (b : WorldBorder)
    (hx : b.min_x + c.size / 2 ≤ b.max_x - c.size / 2)
    (hy : b.min_y + c.size / 2 ≤ b.max_y - c.size / 2) :
    withinBorderMargin b (c.check_border b.min_x b.min_y b.max_x b.max_y) := by
  unfold withinBorderMargin CellData.check_border rustClamp
  refine ⟨?_, ?_, ?_, ?_⟩ <;> dsimp only [] <;> split_ifs <;> linarith

/-- C9 amended witness: a cell of size 10 far outside a 3200×3200 border
is clamped back inside the margin bounds. -/
theorem check_border_clamps_witness :
    withinBorderMargin (WorldBorder.new 3200 3200)
      ((CellData.new 7 CellType.Player 99999 (-99999) 10 0).check_border
        (WorldBorder.new 3200 3200).min_x (WorldBorder.new 3200 3200).min_y
        (WorldBorder.new 3200 3200).max_x (WorldBorder.new 3200 3200).max_y) :=
  check_border_clamps (CellData.new 7 CellType.Player 99999 (-99999) 10 0)
    (WorldBorder.new 3200 3200)
    (by norm_num [WorldBorder.new, CellData.new])
    (by norm_num [WorldBorder.new, CellData.new])

/-- Helper: the reader loop of `get_string_utf8` consumes exactly the
NUL-free bytes before the terminator. -/
theorem takeTillZero_append (l tail : List ℕ) (h : ∀ b ∈ l, b ≠ 0) :
    takeTillZero (l ++ 0 :: tail) = l := by
  induction l with
  | nil => simp [takeTillZero]
  | cons b bs ih =>
    have hb : (b != 0) = true := by
      simpa using h b (List.mem_cons_self b bs)
    simp only [takeTillZero, List.cons_append, List.takeWhile_cons] at ih ⊢
    rw [if_pos hb]
    rw [ih fun x hx => h x (List.mem_cons_of_mem _ hx)]

/-- Helper: UTF-8 bytes of a nonzero scalar are all nonzero. -/
theorem utf8EncodeChar_ne_zero (c : ℕ) (hc : c ≠ 0) :
    ∀ b ∈ utf8EncodeChar c, b ≠ 0 := by
  unfold utf8EncodeChar
  split_ifs <;> intro b hb <;>
    simp only [List.mem_cons, List.mem_singleton, List.not_mem_nil, or_false] at hb <;>
    omega

/-- Helper: decoding an encoded valid scalar yields that scalar and
continues with the rest of the stream. -/
theorem utf8DecodeLossy_encode (c : ℕ) (hv : isValidScalar c) (tail : List ℕ) :
    utf8DecodeLossy (utf8EncodeChar c ++ tail) = c :: utf8DecodeLossy tail := by
  obtain ⟨hlt, hsur⟩ := hv
  by_cases h1 : c < 128
  · simp only [utf8EncodeChar, if_pos h1, List.cons_append, List.nil_append]
    simp only [utf8DecodeLossy]
    have hstep : utf8Step c tail = (c, tail) := by
      unfold utf8Step
      rw [if_pos h1]
    rw [hstep]
  · by_cases h2 : c < 2048
    · simp only [utf8EncodeChar, if_neg h1, if_pos h2, List.cons_append, List.nil_append]
      simp only [utf8DecodeLossy]
      have hstep : utf8Step (192 + c / 64) ((128 + c % 64) :: tail) = (c, tail) := by
        unfold utf8Step
        rw [if_neg (by omega),
          if_pos (show 194 ≤ 192 + c / 64 ∧ 192 + c / 64 ≤ 223 by constructor <;> omega)]
        dsimp only
        rw [if_pos (show 128 ≤ 128 + c % 64 ∧ 128 + c % 64 ≤ 191 by constructor <;> omega)]
        have hval : (192 + c / 64 - 192) * 64 + (128 + c % 64 - 128) = c := by omega
        rw [hval]
      rw [hstep]
    · by_cases h3 : c < 65536
      · simp only [utf8EncodeChar, if_neg h1, if_neg h2, if_pos h3, List.cons_append,
          List.nil_append]
        simp only [utf8DecodeLossy]
        have hstep : utf8Step (224 + c / 4096) ((128 + c / 64 % 64) :: (128 + c % 64) :: tail)
            = (c, tail) := by
          unfold utf8Step
          rw [if_neg (by omega), if_neg (by omega),
            if_pos (show 224 ≤ 224 + c / 4096 ∧ 224 + c / 4096 ≤ 239 by constructor <;> omega)]
          dsimp only
          rw [if_pos (show (128 ≤ 128 + c / 64 % 64 ∧ 128 + c / 64 % 64 ≤ 191)
              ∧ (128 ≤ 128 + c % 64 ∧ 128 + c % 64 ≤ 191)
              ∧ (224 + c / 4096 = 224 → 160 ≤ 128 + c / 64 % 64)
              ∧ (224 + c / 4096 = 237 → 128 + c / 64 % 64 ≤ 159) by
            refine ⟨⟨by omega, by omega⟩, ⟨by omega, by omega⟩, by omega, by omega⟩)]
          have hval : (224 + c / 4096 - 224) * 4096 + (128 + c / 64 % 64 - 128) * 64
              + (128 + c % 64 - 128) = c := by omega
          rw [hval]
        rw [hstep]
      · simp only [utf8EncodeChar, if_neg h1, if_neg h2, if_neg h3, List.cons_append,
          List.nil_append]
        simp only [utf8DecodeLossy]
        have hstep : utf8Step (240 + c / 262144)
            ((128 + c / 4096 % 64) :: (128 + c / 64 % 64) :: (128 + c % 64) :: tail)
            = (c, tail) := by
          unfold utf8Step
          rw [if_neg (by omega), if_neg (by omega), if_neg (by omega),
            if_pos (show 240 ≤ 240 + c / 262144 ∧ 240 + c / 262144 ≤ 244 by
              constructor <;> omega)]
          dsimp only
          rw [if_pos (show (128 ≤ 128 + c / 4096 % 64 ∧ 128 + c / 4096 % 64 ≤ 191)
              ∧ (128 ≤ 128 + c / 64 % 64 ∧ 128 + c / 64 % 64 ≤ 191)
              ∧ (128 ≤ 128 + c % 64 ∧ 128 + c % 64 ≤ 191)
              ∧ (240 + c / 262144 = 240 → 144 ≤ 128 + c / 4096 % 64)
              ∧ (240 + c / 262144 = 244 → 128 + c / 4096 % 64 ≤ 143) by
            refine ⟨⟨by omega, by omega⟩, ⟨by omega, by omega⟩, ⟨by omega, by omega⟩,
              by omega, by omega⟩)]
          have hval : (240 + c / 262144 - 240) * 262144 + (128 + c / 4096 % 64 - 128) * 4096
              + (128 + c / 64 % 64 - 128) * 64 + (128 + c % 64 - 128) = c := by omega
          rw [hval]
        rw [hstep]

/-- Helper: the UTF-8 decoder inverts the encoder on valid scalar lists. -/
theorem utf8DecodeLossy_flatten (s : List ℕ) (hs : ∀ c ∈ s, isValidScalar c) :
    utf8DecodeLossy ((s.map utf8EncodeChar).flatten) = s := by
  induction s with
  | nil => simp [utf8DecodeLossy]
  | cons c cs ih =>
    simp only [List.map_cons, List.flatten_cons]
    rw [utf8DecodeLossy_encode c (hs c (List.mem_cons_self c cs))]
    rw [ih fun x hx => hs x (List.mem_cons_of_mem _ hx)]

/-- Helper: full `get_string_utf8 ∘ put_string_utf8` roundtrip on NUL-free
valid scalar lists. -/
theorem utf8_string_roundtrip (s : List ℕ) (hs : ∀ c ∈ s, isValidScalar c ∧ c ≠ 0) :
    getStringUtf8 (putStringUtf8 s) = s := by
  unfold getStringUtf8 putStringUtf8
  have hnz : ∀ b ∈ (s.map utf8EncodeChar).flatten, b ≠ 0 := by
    intro b hb
    rw [List.mem_flatten] at hb
    obtain ⟨l, hl, hbl⟩ := hb
    rw [List.mem_map] at hl
    obtain ⟨c, hc, rfl⟩ := hl
    exact utf8EncodeChar_ne_zero c (hs c hc).2 b hbl
  rw [show ((s.map utf8EncodeChar).flatten ++ [0])
        = (s.map utf8EncodeChar).flatten ++ 0 :: [] from rfl,
    takeTillZero_append _ _ hnz]
  exact utf8DecodeLossy_flatten s fun c hc => (hs c hc).1

/-- Helper: UTF-16 code units of a nonzero valid scalar are nonzero and
fit in a u16. -/
theorem utf16EncodeChar_facts (c : ℕ) (hv : isValidScalar c) (hc : c ≠ 0) :
    ∀ w ∈ utf16EncodeChar c, w ≠ 0 ∧ w < 65536 := by
  obtain ⟨hlt, hsur⟩ := hv
  unfold utf16EncodeChar
  split_ifs <;> intro w hw <;>
    simp only [List.mem_cons, List.mem_singleton, List.not_mem_nil, or_false] at hw <;>
    omega

/-- Helper: the reader loop of `get_string_unicode` recovers exactly the
nonzero u16 units before the NUL unit. -/
theorem collectU16_encode (ws : List ℕ) (h : ∀ w ∈ ws, w ≠ 0 ∧ w < 65536) :
    collectU16TillZero ((ws.map fun w => [w % 256, w / 256 % 256]).flatten ++ [0, 0])
      = ws := by
  induction ws with
  | nil => rfl
  | cons w ws2 ih =>
    obtain ⟨hnz, hlt⟩ := h w (List.mem_cons_self w ws2)
    simp only [List.map_cons, List.flatten_cons, List.cons_append, List.nil_append]
    simp only [collectU16TillZero]
    have hval : w % 256 + 256 * (w / 256 % 256) = w := by omega
    rw [hval, if_neg hnz]
    rw [ih fun x hx => h x (List.mem_cons_of_mem _ hx)]

/-- Helper: decoding an encoded valid scalar from UTF-16 code units. -/
theorem utf16DecodeLossy_encode (c : ℕ) (hv : isValidScalar c) (tail : List ℕ) :
    utf16DecodeLossy (utf16EncodeChar c ++ tail) = c :: utf16DecodeLossy tail := by
  obtain ⟨hlt, hsur⟩ := hv
  by_cases h1 : c < 65536
  · simp only [utf16EncodeChar, if_pos h1, List.cons_append, List.nil_append]
    simp only [utf16DecodeLossy]
    have hstep : utf16Step c tail = (c, tail) := by
      unfold utf16Step
      rw [if_pos (by omega)]
    rw [hstep]
  · simp only [utf16EncodeChar, if_neg h1, List.cons_append, List.nil_append]
    simp only [utf16DecodeLossy]
    have hstep : utf16Step (55296 + (c - 65536) / 1024)
        ((56320 + (c - 65536) % 1024) :: tail) = (c, tail) := by
      unfold utf16Step
      rw [if_neg (by omega), if_pos (by omega)]
      dsimp only
      rw [if_pos (show 56320 ≤ 56320 + (c - 65536) % 1024
          ∧ 56320 + (c - 65536) % 1024 ≤ 57343 by constructor <;> omega)]
      have hval : 65536 + (55296 + (c - 65536) / 1024 - 55296) * 1024
          + (56320 + (c - 65536) % 1024 - 56320) = c := by omega
      rw [hval]
    rw [hstep]

/-- Helper: the UTF-16 decoder inverts the encoder on valid scalar lists. -/
theorem utf16DecodeLossy_flatten (s : List ℕ) (hs : ∀ c ∈ s, isValidScalar c) :
    utf16DecodeLossy ((s.map utf16EncodeChar).flatten) = s := by
  induction s with
  | nil => simp [utf16DecodeLossy]
  | cons c cs ih =>
    simp only [List.map_cons, List.flatten_cons]
    rw [utf16DecodeLossy_encode c (hs c (List.mem_cons_self c cs))]
    rw [ih fun x hx => hs x (List.mem_cons_of_mem _ hx)]

/-- Helper: full `get_string_unicode ∘ put_string_unicode` roundtrip on
NUL-free valid scalar lists. -/
theorem utf16_string_roundtrip (s : List ℕ) (hs : ∀ c ∈ s, isValidScalar c ∧ c ≠ 0) :
    getStringUnicode (putStringUnicode s) = s := by
  unfold getStringUnicode putStringUnicode
  have hws : ∀ w ∈ (s.map utf16EncodeChar).flatten, w ≠ 0 ∧ w < 65536 := by
    intro w hw
    rw [List.mem_flatten] at hw
    obtain ⟨l, hl, hwl⟩ := hw
    rw [List.mem_map] at hl
    obtain ⟨c, hc, rfl⟩ := hl
    exact utf16EncodeChar_facts c (hs c hc).1 (hs c hc).2 w hwl
  rw [collectU16_encode _ hws]
  exact utf16DecodeLossy_flatten s fun c hc => (hs c hc).1

/-- C8 counterexample: `put_string_utf8` followed by `get_string_utf8` does
NOT return the original string when it contains an interior NUL: the
terminator scan stops at the embedded zero, so `"a\x00b"` reads back as
`"a"`. -/
theorem codec_roundtrip_counterexample :
    getStringUtf8 (putStringUtf8 [97, 0, 98]) = [97]
      ∧ [97] ≠ [97, 0, 98] := by
  constructor
  · simp [getStringUtf8, putStringUtf8, utf8EncodeChar, takeTillZero,
      utf8DecodeLossy, utf8Step]
  · decide

/-- C8 amended: every primitive value round-trips through the binary codec
(with `f32`/`f64` at the IEEE bit-pattern level), and both NUL-terminated
string codecs round-trip for every string free of interior NUL
characters. -/
theorem codec_roundtrip :
    (∀ (v : ℕ) (r : List ℕ), v < 256 → getU8 (putU8 v ++ r) = some (v, r))
    ∧ (∀ (v : ℕ) (r : List ℕ), v < 65536 → getU16 (putU16 v ++ r) = some (v, r))
    ∧ (∀ (v : ℕ) (r : List ℕ), v < 4294967296 → getU32 (putU32 v ++ r) = some (v, r))
    ∧ (∀ (v : ℤ) (r : List ℕ), -32768 ≤ v → v < 32768 →
        getI16 (putI16 v ++ r) = some (v, r))
    ∧ (∀ (v : ℤ) (r : List ℕ), -2147483648 ≤ v → v < 2147483648 →
        getI32 (putI32 v ++ r) = some (v, r))
    ∧ (∀ (bits : ℕ) (r : List ℕ), bits < 4294967296 →
        getF32 (putF32 bits ++ r) = some (bits, r))
    ∧ (∀ (bits : ℕ) (r : List ℕ), bits < 18446744073709551616 →
        getF64 (putF64 bits ++ r) = some (bits, r))
    ∧ (∀ s : List ℕ, (∀ c ∈ s, isValidScalar c ∧ c ≠ 0) →
        getStringUtf8 (putStringUtf8 s) = s)
    ∧ (∀ s : List ℕ, (∀ c ∈ s, isValidScalar c ∧ c ≠ 0) →
        getStringUnicode (putStringUnicode s) = s) := by
  refine ⟨?_, ?_, ?_, ?_, ?_, ?_, ?_, utf8_string_roundtrip, utf16_string_roundtrip⟩
  · intro v r hv
    simp only [putU8, getU8, List.cons_append, List.nil_append]
    congr 2
    omega
  · intro v r hv
    simp only [putU16, getU16, List.cons_append, List.nil_append]
    congr 2
    omega
  · intro v r hv
    simp only [putU32, getU32, List.cons_append, List.nil_append]
    congr 2
    omega
  · intro v r h1 h2
    simp only [putI16, putU16, getI16, getU16, List.cons_append, List.nil_append,
      Option.map_some', Option.some.injEq, Prod.mk.injEq]
    refine ⟨?_, trivial⟩
    have hX : (v % 65536).toNat % 256 + 256 * ((v % 65536).toNat / 256 % 256)
        = (v % 65536).toNat := by omega
    rw [hX]
    split_ifs <;> omega
  · intro v r h1 h2
    simp only [putI32, putU32, getI32, getU32, List.cons_append, List.nil_append,
      Option.map_some', Option.some.injEq, Prod.mk.injEq]
    refine ⟨?_, trivial⟩
    have hX : (v % 4294967296).toNat % 256 + 256 * ((v % 4294967296).toNat / 256 % 256)
        + 65536 * ((v % 4294967296).toNat / 65536 % 256)
        + 16777216 * ((v % 4294967296).toNat / 16777216 % 256)
        = (v % 4294967296).toNat := by omega
    rw [hX]
    split_ifs <;> omega
  · intro bits r h
    simp only [putF32, getF32, putU32, getU32, List.cons_append, List.nil_append]
    congr 2
    omega
  · intro bits r h
    simp only [putF64, getF64, putU64, getU64, List.cons_append, List.nil_append]
    congr 2
    omega

/-- C8 amended witness: concrete roundtrips — `u8 171`, `u16 43981`,
`u32 3735928559`, `i16 −2`, `i32 −70000`, an f32 bit pattern, an f64 bit
pattern, and the strings `"hi"` (UTF-8) and `"h€😀"` (UTF-16, with an
astral character). -/
theorem codec_roundtrip_witness :
    getU8 (putU8 171 ++ []) = some (171, [])
      ∧ getU16 (putU16 43981 ++ []) = some (43981, [])
      ∧ getU32 (putU32 3735928559 ++ []) = some (3735928559, [])
      ∧ getI16 (putI16 (-2) ++ []) = some (-2, [])
      ∧ getI32 (putI32 (-70000) ++ []) = some (-70000, [])
      ∧ getF32 (putF32 1078530011 ++ []) = some (1078530011, [])
      ∧ getF64 (putF64 4614256656552045848 ++ []) = some (4614256656552045848, [])
      ∧ getStringUtf8 (putStringUtf8 [104, 105]) = [104, 105]
      ∧ getStringUnicode (putStringUnicode [104, 8364, 128512]) = [104, 8364, 128512] :=
  ⟨codec_roundtrip.1 171 [] (by decide),
    codec_roundtrip.2.1 43981 [] (by decide),
    codec_roundtrip.2.2.1 3735928559 [] (by decide),
    codec_roundtrip.2.2.2.1 (-2) [] (by decide) (by decide),
    codec_roundtrip.2.2.2.2.1 (-70000) [] (by decide) (by decide),
    codec_roundtrip.2.2.2.2.2.1 1078530011 [] (by decide),
    codec_roundtrip.2.2.2.2.2.2.1 4614256656552045848 [] (by decide),
    codec_roundtrip.2.2.2.2.2.2.2.1 [104, 105] (by decide),
    codec_roundtrip.2.2.2.2.2.2.2.2 [104, 8364, 128512] (by decide)⟩

/-- C1 amended witness: the concrete pair of sizes 120 and 100 at distance
0 with mobile physics off: in contact, strictly larger, owner present. -/
theorem player_virus_eat_iff_witness :
    resolveEat false 0 10 true
        { id := 2, size := 120, ptype := .Player, owner := some 1, age := 20,
          can_remerge := false }
        { id := 3, size := 100, ptype := .Virus, owner := none, age := 20,
          can_remerge := false } 0 = .eat true :=
  ((player_virus_eat_iff false 0 10 true
      { id := 2, size := 120, ptype := .Player, owner := some 1, age := 20,
        can_remerge := false }
      { id := 3, size := 100, ptype := .Virus, owner := none, age := 20,
        can_remerge := false } 0 rfl rfl).2).mpr
    (by refine ⟨⟨by norm_num, by norm_num⟩, by norm_num, rfl⟩)

/-- C4 counterexample: a chat packet from a client at protocol 7 (> 6)
carrying the UTF-16LE bytes of `"AB"` is decoded as UTF-8 — yielding `"A"`
(the second byte `0x00` is taken as the terminator) — whereas the claimed
rule (UTF-16LE for protocol > 6) yields `"AB"`. -/
theorem chat_encoding_counterexample :
    ClientPacket.parse [99, 0, 65, 0, 66, 0, 0, 0] 7 = .ok (.chat 0 [65])
      ∧ getStringUnicode [65, 0, 66, 0, 0, 0] = [65, 66]
      ∧ ([65] : List ℕ) ≠ [65, 66] := by
  refine ⟨?_, ?_, by decide⟩
  · simp [ClientPacket.parse, chatReservedLen, getStringUtf8, takeTillZero,
      utf8DecodeLossy, utf8Step]
  · simp [getStringUnicode, collectU16TillZero, utf16DecodeLossy, utf16Step]

/-- C4 amended: the inbound Chat parser decodes the message as
NUL-terminated UTF-16LE when the protocol version is BELOW 6 and as
NUL-terminated UTF-8 when it is 6 or above — the inverse of the rule used
for the Join name (UTF-16 only above 6); the two rules agree only at
protocol 6.  Stated as: a chat packet whose body is the UTF-16 (resp.
UTF-8) encoding of a NUL-free string parses back to that string exactly
when `protocol < 6` (resp. `protocol ≥ 6`). -/
theorem chat_encoding_rule (p f : ℕ) (pad s : List ℕ)
    (hpad : pad.length = chatReservedLen f)
    (hs : ∀ c ∈ s, isValidScalar c ∧ c ≠ 0) :
    (p < 6 → ClientPacket.parse (99 :: f :: (pad ++ putStringUnicode s)) p
        = .ok (.chat f s))
    ∧ (6 ≤ p → ClientPacket.parse (99 :: f :: (pad ++ putStringUtf8 s)) p
        = .ok (.chat f s)) := by
  constructor
  · intro hp
    simp only [ClientPacket.parse]
    norm_num
    rw [← hpad, List.drop_left]
    rw [if_pos hp, utf16_string_roundtrip s hs]
    rw [if_neg (show ¬ pad.length + (putStringUnicode s).length + 1 + 1 < 3 by
      simp [putStringUnicode]
      omega)]
  · intro hp
    simp only [ClientPacket.parse]
    norm_num
    rw [← hpad, List.drop_left]
    rw [if_neg (not_lt.mpr hp), utf8_string_roundtrip s hs]
    rw [if_neg (show ¬ pad.length + (putStringUtf8 s).length + 1 + 1 < 3 by
      simp [putStringUtf8]
      omega)]

/-- C4 amended witness: the string `"Hi"` round-trips through a chat
packet as UTF-16 at protocol 5 and as UTF-8 at protocol 7. -/
theorem chat_encoding_rule_witness :
    ClientPacket.parse (99 :: 0 :: ([] ++ putStringUnicode [72, 105])) 5
        = .ok (.chat 0 [72, 105])
      ∧ ClientPacket.parse (99 :: 0 :: ([] ++ putStringUtf8 [72, 105])) 7
        = .ok (.chat 0 [72, 105]) :=
  ⟨(chat_encoding_rule 5 0 [] [72, 105] (by decide) (by decide)).1 (by decide),
    (chat_encoding_rule 7 0 [] [72, 105] (by decide) (by decide)).2 (by decide)⟩

/-- C2 counterexample: both live items intersect the query box, but the
query returns only id 1 — id 65537 is omitted because the dedup bitset key
`id & 0xFFFF` collides with id 1, refuting exactness "including when two
distinct live ids share the same low 16 bits". -/
theorem find_in_bounds_counterexample :
    find_in_bounds dedupCexTree (QBounds.fromCenter (1/2) (1/2) (1/4)) = [1]
      ∧ (QuadItem.make 65537 (1/2) (1/2) (1/2)).bound.intersects
          (QBounds.fromCenter (1/2) (1/2) (1/4)) = true
      ∧ (65537 : ℕ) ∉ [(1 : ℕ)] := by
  refine ⟨?_, ?_, by decide⟩
  · norm_num [find_in_bounds, scanCells, cellIds, qtFoldStep, lookupIntersects,
      queryLoX, queryHiX, queryLoY, queryHiY, itemLoX, itemHiX, itemLoY, itemHiY,
      gridIdx, ratAsI32, clampHi, clampLo, QuadItem.make, QBounds.fromCenter,
      QBounds.intersects, dedupCexTree, List.range_succ, List.range_zero,
      List.filter, List.flatMap, List.find?]
  · norm_num [QuadItem.make, QBounds.fromCenter, QBounds.intersects]

/-- Helper: the query loop skips an id whose dedup bit is already set. -/
theorem qtFoldStep_seen (qt : QuadTree) (q : QBounds) (acc : List ℕ × List ℕ) (id : ℕ)
    (h : id % 65536 ∈ acc.1) : qtFoldStep qt q acc id = acc := by
  unfold qtFoldStep
  rw [if_pos h]

/-- Helper: the query loop on a fresh dedup bit marks it and appends the id
exactly when the indexed lookup finds an intersecting item. -/
theorem qtFoldStep_not_seen (qt : QuadTree) (q : QBounds) (acc : List ℕ × List ℕ) (id : ℕ)
    (h : id % 65536 ∉ acc.1) :
    qtFoldStep qt q acc id
      = (id % 65536 :: acc.1,
          if lookupIntersects qt q id = true then acc.2 ++ [id] else acc.2) := by
  unfold qtFoldStep lookupIntersects
  rw [if_neg h]
  cases hfind : qt.items.find? (fun it => it.id == id) with
  | none => simp [hfind]
  | some it =>
    simp only []
    split_ifs with h1 h2 h2 <;> simp_all

/-- Helper: anything the query fold returns was already in the accumulator
or is a scanned id whose lookup intersects the query. -/
theorem qtFold_subset (qt : QuadTree) (q : QBounds) :
    ∀ (s seen res : List ℕ) (j : ℕ),
      j ∈ (s.foldl (qtFoldStep qt q) (seen, res)).2 →
        j ∈ res ∨ (j ∈ s ∧ lookupIntersects qt q j = true) := by
  intro s
  induction s with
  | nil => intro seen res j h; exact Or.inl h
  | cons a s2 ih =>
    intro seen res j h
    rw [List.foldl_cons] at h
    by_cases hs : a % 65536 ∈ seen
    · rw [qtFoldStep_seen qt q (seen, res) a hs] at h
      rcases ih seen res j h with h1 | ⟨h2, h3⟩
      · exact Or.inl h1
      · exact Or.inr ⟨List.mem_cons_of_mem a h2, h3⟩
    · rw [qtFoldStep_not_seen qt q (seen, res) a hs] at h
      by_cases hok : lookupIntersects qt q a = true
      · rw [if_pos hok] at h
        rcases ih _ _ j h with h1 | ⟨h2, h3⟩
        · rcases List.mem_append.mp h1 with h4 | h5
          · exact Or.inl h4
          · have : j = a := by simpa using h5
            exact Or.inr ⟨this ▸ List.mem_cons_self a s2, this ▸ hok⟩
        · exact Or.inr ⟨List.mem_cons_of_mem a h2, h3⟩
      · rw [if_neg hok] at h
        rcases ih _ _ j h with h1 | ⟨h2, h3⟩
        · exact Or.inl h1
        · exact Or.inr ⟨List.mem_cons_of_mem a h2, h3⟩

/-- Helper: once the dedup bit of `j` is set, the fold never adds `j`
again, provided no other scanned id shares that bit. -/
theorem qtFold_mem_of_seen (qt : QuadTree) (q : QBounds) :
    ∀ (s seen res : List ℕ) (j : ℕ),
      j % 65536 ∈ seen →
      (∀ a ∈ s, a % 65536 = j % 65536 → a = j) →
      (j ∈ (s.foldl (qtFoldStep qt q) (seen, res)).2 ↔ j ∈ res) := by
  intro s
  induction s with
  | nil => intro seen res j hseen hj; simp
  | cons a s2 ih =>
    intro seen res j hseen hj
    rw [List.foldl_cons]
    by_cases hs : a % 65536 ∈ seen
    · rw [qtFoldStep_seen qt q (seen, res) a hs]
      exact ih seen res j hseen fun x hx => hj x (List.mem_cons_of_mem a hx)
    · rw [qtFoldStep_not_seen qt q (seen, res) a hs]
      have haj : a ≠ j := fun hEq => hs (by rw [hEq]; exact hseen)
      have hseen2 : j % 65536 ∈ a % 65536 :: seen := List.mem_cons_of_mem _ hseen
      split_ifs with hok
      · rw [ih _ _ j hseen2 fun x hx => hj x (List.mem_cons_of_mem a hx)]
        constructor
        · intro h1
          rcases List.mem_append.mp h1 with h2 | h3
          · exact h2
          · exact absurd (by simpa using h3) (fun h : j = a => haj h.symm)
        · intro h1
          exact List.mem_append.mpr (Or.inl h1)
      · exact ih _ _ j hseen2 fun x hx => hj x (List.mem_cons_of_mem a hx)

/-- Helper: full membership characterisation of the query fold when the
dedup bit of `j` is fresh and no other scanned id shares it: `j` ends in
the result iff it was there already or it is scanned and its lookup
intersects the query. -/
theorem qtFold_mem (qt : QuadTree) (q : QBounds) :
    ∀ (s seen res : List ℕ) (j : ℕ),
      j % 65536 ∉ seen →
      (∀ a ∈ s, a % 65536 = j % 65536 → a = j) →
      (j ∈ (s.foldl (qtFoldStep qt q) (seen, res)).2 ↔
        j ∈ res ∨ (j ∈ s ∧ lookupIntersects qt q j = true)) := by
  intro s
  induction s with
  | nil => intro seen res j hns hj; simp
  | cons a s2 ih =>
    intro seen res j hns hj
    rw [List.foldl_cons]
    by_cases haj : a = j
    · subst haj
      rw [qtFoldStep_not_seen qt q (seen, res) a hns]
      have hseen2 : a % 65536 ∈ a % 65536 :: seen := List.mem_cons_self _ _
      split_ifs with hok
      · rw [qtFold_mem_of_seen qt q s2 _ _ a hseen2
          fun x hx => hj x (List.mem_cons_of_mem a hx)]
        simp [hok]
      · rw [qtFold_mem_of_seen qt q s2 _ _ a hseen2
          fun x hx => hj x (List.mem_cons_of_mem a hx)]
        simp [hok]
    · have hne : a % 65536 ≠ j % 65536 :=
        fun hEq => haj (hj a (List.mem_cons_self a s2) hEq)
      by_cases hs : a % 65536 ∈ seen
      · rw [qtFoldStep_seen qt q (seen, res) a hs]
        rw [ih seen res j hns fun x hx => hj x (List.mem_cons_of_mem a hx)]
        constructor
        · rintro (h1 | ⟨h2, h3⟩)
          · exact Or.inl h1
          · exact Or.inr ⟨List.mem_cons_of_mem a h2, h3⟩
        · rintro (h1 | ⟨h2, h3⟩)
          · exact Or.inl h1
          · rcases List.mem_cons.mp h2 with h4 | h5
            · exact absurd h4.symm haj
            · exact Or.inr ⟨h5, h3⟩
      · rw [qtFoldStep_not_seen qt q (seen, res) a hs]
        have hns2 : j % 65536 ∉ a % 65536 :: seen := by
          intro hmem
          rcases List.mem_cons.mp hmem with h4 | h5
          · exact hne h4.symm
          · exact hns h5
        split_ifs with hok
        · rw [ih _ _ j hns2 fun x hx => hj x (List.mem_cons_of_mem a hx)]
          constructor
          · rintro (h1 | ⟨h2, h3⟩)
            · rcases List.mem_append.mp h1 with h4 | h5
              · exact Or.inl h4
              · exact absurd (by simpa using h5) (fun h : j = a => haj h.symm)
            · exact Or.inr ⟨List.mem_cons_of_mem a h2, h3⟩
          · rintro (h1 | ⟨h2, h3⟩)
            · exact Or.inl (List.mem_append.mpr (Or.inl h1))
            · rcases List.mem_cons.mp h2 with h4 | h5
              · exact absurd h4.symm haj
              · exact Or.inr ⟨h5, h3⟩
        · rw [ih _ _ j hns2 fun x hx => hj x (List.mem_cons_of_mem a hx)]
          constructor
          · rintro (h1 | ⟨h2, h3⟩)
            · exact Or.inl h1
            · exact Or.inr ⟨List.mem_cons_of_mem a h2, h3⟩
          · rintro (h1 | ⟨h2, h3⟩)
            · exact Or.inl h1
            · rcases List.mem_cons.mp h2 with h4 | h5
              · exact absurd h4.symm haj
              · exact Or.inr ⟨h5, h3⟩

/-- Helper: a nested per-cell fold equals the fold over the flattened id
stream. -/
theorem foldl_flatMap {α β γ : Type} (f : γ → List α) (step : β → α → β) :
    ∀ (cells : List γ) (acc : β),
      cells.foldl (fun a c => (f c).foldl step a) acc
        = (cells.flatMap f).foldl step acc := by
  intro cells
  induction cells with
  | nil => intro acc; rfl
  | cons c cs ih =>
    intro acc
    rw [List.foldl_cons, List.flatMap_cons, List.foldl_append, ih]

/-- Helper: membership in the scanned cell list is exactly the inclusive
range condition on both axes. -/
theorem mem_scanCells (loX hiX loY hiY gx gy : ℕ) :
    (gx, gy) ∈ scanCells loX hiX loY hiY
      ↔ loX ≤ gx ∧ gx ≤ hiX ∧ loY ≤ gy ∧ gy ≤ hiY := by
  unfold scanCells
  simp only [List.mem_flatMap, List.mem_map, List.mem_range, Prod.mk.injEq]
  constructor
  · rintro ⟨y0, ⟨y1, hy1, rfl⟩, x0, ⟨x1, hx1, rfl⟩, h1, h2⟩
    omega
  · rintro ⟨h1, h2, h3, h4⟩
    exact ⟨gy, ⟨gy - loY, by omega, by omega⟩, gx, ⟨gx - loX, by omega, by omega⟩, rfl, rfl⟩

/-- Helper: membership in a rebuilt grid cell is exactly having a live item
with that id whose clamped grid range covers the cell. -/
theorem mem_cellIds (qt : QuadTree) (gx gy j : ℕ) :
    j ∈ cellIds qt gx gy ↔ ∃ it ∈ qt.items, it.id = j
      ∧ itemLoX qt it ≤ gx ∧ gx ≤ itemHiX qt it
      ∧ itemLoY qt it ≤ gy ∧ gy ≤ itemHiY qt it := by
  unfold cellIds
  simp only [List.mem_map, List.mem_filter, Bool.and_eq_true, decide_eq_true_eq]
  constructor
  · rintro ⟨it, ⟨hmem, ⟨⟨h1, h2⟩, h3⟩, h4⟩, rfl⟩
    exact ⟨it, hmem, rfl, h1, h2, h3, h4⟩
  · rintro ⟨it, hmem, rfl, h1, h2, h3, h4⟩
    exact ⟨it, ⟨hmem, ⟨⟨h1, h2⟩, h3⟩, h4⟩, rfl⟩

/-- Helper: truncation toward zero is monotone. -/
theorem ratAsI32_mono {x y : ℚ} (h : x ≤ y) : ratAsI32 x ≤ ratAsI32 y := by
  unfold ratAsI32
  split_ifs with h1 h2 h2
  · exact Int.ceil_le_ceil h
  · exact le_trans (Int.ceil_le.mpr (by exact_mod_cast le_of_lt h1))
      (Int.floor_nonneg.mpr (not_lt.mp h2))
  · linarith
  · exact Int.floor_le_floor h

/-- Helper: the grid coordinate map is monotone for positive cell size. -/
theorem gridIdx_mono (origin cs : ℚ) (hcs : 0 < cs) {u v : ℚ} (h : u ≤ v) :
    gridIdx origin cs u ≤ gridIdx origin cs v := by
  unfold gridIdx
  exact ratAsI32_mono ((div_le_div_iff_of_pos_right hcs).mpr (by linarith))

/-- Helper: a coordinate short of the far edge of the 32-cell grid has
grid index at most 31. -/
theorem gridIdx_le31 (origin cs v : ℚ) (hcs : 0 < cs) (h : v < origin + 32 * cs) :
    gridIdx origin cs v ≤ 31 := by
  unfold gridIdx ratAsI32
  have h2 : (v - origin) / cs < 32 := by
    rw [div_lt_iff hcs]
    linarith
  split_ifs with h1
  · have h3 : Int.ceil ((v - origin) / cs) ≤ 0 :=
      Int.ceil_le.mpr (by exact_mod_cast le_of_lt h1)
    omega
  · have h3 : (⌊(v - origin) / cs⌋ : ℤ) < 32 := Int.floor_lt.mpr (by exact_mod_cast h2)
    omega

/-- Helper: the clamped grid ranges of an item and of a query overlap in
some cell, given the ℤ-level ordering facts. -/
theorem gridRange_overlap (a1 a2 b1 b2 : ℤ) (h12 : a1 ≤ a2) (hb12 : b1 ≤ b2)
    (hab : a1 ≤ b2) (hba : b1 ≤ a2) (hb31 : b1 ≤ 31) :
    ∃ g : ℕ, clampLo a1 ≤ g ∧ g ≤ clampHi a2 ∧ b1.toNat ≤ g ∧ g ≤ clampHi b2 := by
  unfold clampLo clampHi
  refine ⟨max (min a1.toNat 31) b1.toNat, ?_, ?_, ?_, ?_⟩ <;> (try split_ifs) <;> omega

/-- Helper: with mod-65536-distinct ids, `find?` on an id returns exactly
the live item carrying it. -/
theorem find?_id_eq (items : List QuadItem)
    (hdist : ∀ it1 ∈ items, ∀ it2 ∈ items, it1.id % 65536 = it2.id % 65536 → it1 = it2)
    (it : QuadItem) (hit : it ∈ items) :
    items.find? (fun it2 => it2.id == it.id) = some it := by
  induction items with
  | nil => cases hit
  | cons a l ih =>
    by_cases ha : a.id = it.id
    · have : a = it := hdist a (List.mem_cons_self a l) it hit (by rw [ha])
      subst this
      exact List.find?_cons_of_pos l (by simp)
    · have hmem : it ∈ l := by
        rcases List.mem_cons.mp hit with h1 | h2
        · exact absurd (congrArg QuadItem.id h1.symm) ha
        · exact h2
      rw [List.find?_cons_of_neg l (by simpa using ha)]
      exact ih (fun x hx y hy => hdist x (List.mem_cons_of_mem a hx)
        y (List.mem_cons_of_mem a hy)) hmem

/-- C2 amended: `find_in_bounds` returns exactly the set of live item ids
whose AABB intersects the query box, PROVIDED no two live ids share the
same low 16 bits (the dedup bitset key) and the query's low corner lies
left of / above the far edge of the 32×32 grid (a query starting beyond
the world border scans no cells).  Well-formedness: positive cell size,
items and query with ordered bounds. -/
theorem find_in_bounds_exact (qt : QuadTree) (q : QBounds)
    (hcs : 0 < qt.cellSize)
    (hbits : qt.items.Pairwise fun a b => a.id % 65536 ≠ b.id % 65536)
    (hitems : ∀ it ∈ qt.items, it.bound.min_x ≤ it.bound.max_x
      ∧ it.bound.min_y ≤ it.bound.max_y)
    (hqwf : q.min_x ≤ q.max_x ∧ q.min_y ≤ q.max_y)
    (hqin : q.min_x < qt.bounds.min_x + 32 * qt.cellSize
      ∧ q.min_y < qt.bounds.min_y + 32 * qt.cellSize)
    (j : ℕ) :
    j ∈ find_in_bounds qt q
      ↔ ∃ it ∈ qt.items, it.id = j ∧ it.bound.intersects q = true := by
  have hdist : ∀ it1 ∈ qt.items, ∀ it2 ∈ qt.items,
      it1.id % 65536 = it2.id % 65536 → it1 = it2 := by
    intro it1 h1 it2 h2 hmod
    by_contra hne
    have hsymm : Symmetric (fun a b : QuadItem => a.id % 65536 ≠ b.id % 65536) :=
      fun a b h hEq => h hEq.symm
    exact List.Pairwise.forall hsymm hbits h1 h2 hne hmod
  have hflat : find_in_bounds qt q
      = (((scanCells (queryLoX qt q) (queryHiX qt q) (queryLoY qt q)
            (queryHiY qt q)).flatMap
          fun c => cellIds qt c.1 c.2).foldl (qtFoldStep qt q) ([], [])).2 := by
    unfold find_in_bounds
    rw [foldl_flatMap]
  have hstream_item : ∀ a ∈ (scanCells (queryLoX qt q) (queryHiX qt q)
      (queryLoY qt q) (queryHiY qt q)).flatMap (fun c => cellIds qt c.1 c.2),
      ∃ ita ∈ qt.items, ita.id = a := by
    intro a ha
    obtain ⟨c, hc, hac⟩ := List.mem_flatMap.mp ha
    obtain ⟨ita, hmem, hid, _⟩ := (mem_cellIds qt c.1 c.2 a).mp hac
    exact ⟨ita, hmem, hid⟩
  constructor
  · intro hmem
    rw [hflat] at hmem
    rcases qtFold_subset qt q _ [] [] j hmem with h | ⟨hjs, hok⟩
    · simp at h
    · unfold lookupIntersects at hok
      cases hfind : qt.items.find? (fun it => it.id == j) with
      | none => rw [hfind] at hok; cases hok
      | some it =>
        rw [hfind] at hok
        refine ⟨it, List.mem_of_find?_eq_some hfind, ?_, hok⟩
        simpa using List.find?_some hfind
  · rintro ⟨it, hit, rfl, hint⟩
    have hj : ∀ a ∈ (scanCells (queryLoX qt q) (queryHiX qt q) (queryLoY qt q)
        (queryHiY qt q)).flatMap (fun c => cellIds qt c.1 c.2),
        a % 65536 = it.id % 65536 → a = it.id := by
      intro a ha hmod
      obtain ⟨ita, hita, hida⟩ := hstream_item a ha
      rw [← hida] at hmod ⊢
      rw [hdist ita hita it hit hmod]
    have hint2 : q.min_x < it.bound.max_x ∧ it.bound.min_x < q.max_x
        ∧ q.min_y < it.bound.max_y ∧ it.bound.min_y < q.max_y := by
      have hint3 := hint
      unfold QBounds.intersects at hint3
      simp only [Bool.not_eq_true', Bool.or_eq_false_iff,
        decide_eq_false_iff_not, ge_iff_le, not_le] at hint3
      exact ⟨hint3.1.1.1, hint3.1.1.2, hint3.1.2, hint3.2⟩
    obtain ⟨hx1, hx2, hy1, hy2⟩ := hint2
    obtain ⟨hitx, hity⟩ := hitems it hit
    obtain ⟨gx, hgx1, hgx2, hgx3, hgx4⟩ := gridRange_overlap
      (gridIdx qt.bounds.min_x qt.cellSize it.bound.min_x)
      (gridIdx qt.bounds.min_x qt.cellSize it.bound.max_x)
      (gridIdx qt.bounds.min_x qt.cellSize q.min_x)
      (gridIdx qt.bounds.min_x qt.cellSize q.max_x)
      (gridIdx_mono _ _ hcs hitx) (gridIdx_mono _ _ hcs hqwf.1)
      (gridIdx_mono _ _ hcs (le_of_lt hx2))
      (gridIdx_mono _ _ hcs (le_of_lt hx1))
      (gridIdx_le31 _ _ _ hcs hqin.1)
    obtain ⟨gy, hgy1, hgy2, hgy3, hgy4⟩ := gridRange_overlap
      (gridIdx qt.bounds.min_y qt.cellSize it.bound.min_y)
      (gridIdx qt.bounds.min_y qt.cellSize it.bound.max_y)
      (gridIdx qt.bounds.min_y qt.cellSize q.min_y)
      (gridIdx qt.bounds.min_y qt.cellSize q.max_y)
      (gridIdx_mono _ _ hcs hity) (gridIdx_mono _ _ hcs hqwf.2)
      (gridIdx_mono _ _ hcs (le_of_lt hy2))
      (gridIdx_mono _ _ hcs (le_of_lt hy1))
      (gridIdx_le31 _ _ _ hcs hqin.2)
    have hcell : it.id ∈ cellIds qt gx gy := by
      refine (mem_cellIds qt gx gy it.id).mpr ⟨it, hit, rfl, ?_, ?_, ?_, ?_⟩
      · unfold itemLoX
        exact hgx1
      · unfold itemHiX
        exact hgx2
      · unfold itemLoY
        exact hgy1
      · unfold itemHiY
        exact hgy2
    have hscan : (gx, gy) ∈ scanCells (queryLoX qt q) (queryHiX qt q)
        (queryLoY qt q) (queryHiY qt q) := by
      refine (mem_scanCells _ _ _ _ gx gy).mpr ⟨?_, ?_, ?_, ?_⟩
      · unfold queryLoX
        exact hgx3
      · unfold queryHiX
        exact hgx4
      · unfold queryLoY
        exact hgy3
      · unfold queryHiY
        exact hgy4
    have hstream : it.id ∈ (scanCells (queryLoX qt q) (queryHiX qt q)
        (queryLoY qt q) (queryHiY qt q)).flatMap (fun c => cellIds qt c.1 c.2) :=
      List.mem_flatMap.mpr ⟨(gx, gy), hscan, hcell⟩
    have hok : lookupIntersects qt q it.id = true := by
      unfold lookupIntersects
      rw [find?_id_eq qt.items hdist it hit]
      exact hint
    rw [hflat]
    rw [qtFold_mem qt q _ [] [] it.id (by simp) hj]
    exact Or.inr ⟨hstream, hok⟩

/-- C2 amended witness: in a one-item tree the query finds exactly the
item. -/
theorem find_in_bounds_exact_witness :
    7 ∈ find_in_bounds singleItemTree (QBounds.fromCenter (1/2) (1/2) (1/4)) :=
  (find_in_bounds_exact singleItemTree (QBounds.fromCenter (1/2) (1/2) (1/4))
      (by norm_num [singleItemTree])
      (by simp [singleItemTree])
      (by
        intro it hit
        simp only [singleItemTree, List.mem_singleton] at hit
        subst hit
        norm_num [QuadItem.make, QBounds.fromCenter])
      (by norm_num [QBounds.fromCenter])
      (by norm_num [singleItemTree, QBounds.fromCenter])
      7).mpr
    ⟨QuadItem.make 7 (1/2) (1/2) (1/2), by simp [singleItemTree], rfl,
      by norm_num [QuadItem.make, QBounds.fromCenter, QBounds.intersects]⟩

end Cogar
